import Mathlib

/-!
Shallow embedding of the feather connection bring-up code and the player-data
slot codec, with theorems checking the natural-language specification against
the source.

Machine integers are embedded as `Int`/`Nat` with explicit wrap-around where
Rust performs a cast:
  * `usizeOfI8 v`  models Rust `v as usize` on an `i8` value (sign-extend to
    64 bits, reinterpret: `v mod 2^64`);
  * `i8OfUsize n`  models Rust `n as i8` on a `usize`/`u8` value (truncate to
    the low byte, two's complement).
-/

/-- Rust `as usize` applied to an `i8` value: sign-extend and reinterpret,
i.e. the value modulo 2^64. -/
def usizeOfI8 (v : Int) : Nat := (v % (2 ^ 64)).toNat

/-- Rust `as i8` applied to an unsigned value: truncate to the low byte and
reinterpret in two's complement (result in -128..=127). -/
def i8OfUsize (n : Nat) : Int :=
  if n % 256 < 128 then ((n % 256 : Nat) : Int) else ((n % 256 : Nat) : Int) - 256

/-! ## Item model

Modelled from the spec: the item registry lives in the `feather_items` crate,
which is not part of the excerpt (only `Item::from_identifier`,
`Item::identifier` and the `Item::Air` sentinel are used by `player.rs`).
The spec says identifiers are namespaced strings such as `minecraft:feather`
and that an unknown `id` decodes to the sentinel `minecraft:air`. -/
inductive Item where
  | Air
  | Stone
  | Feather
  deriving DecidableEq, Repr

/-- Modelled from the spec: `Item::identifier`, the namespaced identifier of
an item (`minecraft:air` for the sentinel). -/
def Item.identifier : Item → String
  | .Air => "minecraft:air"
  | .Stone => "minecraft:stone"
  | .Feather => "minecraft:feather"

/-- Modelled from the spec: `Item::from_identifier`, the partial inverse of
`Item.identifier`; unknown identifiers yield `none`. -/
def Item.from_identifier (s : String) : Option Item :=
  if s = "minecraft:air" then some .Air
  else if s = "minecraft:stone" then some .Stone
  else if s = "minecraft:feather" then some .Feather
  else none

/-- `feather_items::ItemStack`: an item type together with a `u8` amount. -/
structure ItemStack where
  ty : Item
  amount : Nat
  deriving DecidableEq, Repr

/-! ## Slot codec (src/core/anvil/src/player.rs)

Protocol constants. Modelled from the spec: they are imported from
`feather_inventory::player_constants`, which is not in the excerpt. The
spec pins them down: armor disk slots `100..=103` map by `108 - slot` onto
`SLOT_ARMOR_MIN..=SLOT_ARMOR_MAX` (so the armor window indices are `5..=8`),
main-inventory disk slots `9..=35` map by the identity (so
`SLOT_INVENTORY_OFFSET = 9` and `INVENTORY_SIZE = 27`), and the hotbar and
offhand constants are the Minecraft player-window values `36` and `45`. -/
def SLOT_HOTBAR_OFFSET : Nat := 36

/-- Modelled from the spec: see `SLOT_HOTBAR_OFFSET`. -/
def HOTBAR_SIZE : Nat := 9

/-- Modelled from the spec: see `SLOT_HOTBAR_OFFSET`. -/
def SLOT_INVENTORY_OFFSET : Nat := 9

/-- Modelled from the spec: see `SLOT_HOTBAR_OFFSET`. -/
def INVENTORY_SIZE : Nat := 27

/-- Modelled from the spec: see `SLOT_HOTBAR_OFFSET`. -/
def SLOT_ARMOR_MIN : Nat := 5

/-- Modelled from the spec: see `SLOT_HOTBAR_OFFSET`. -/
def SLOT_ARMOR_MAX : Nat := 8

/-- Modelled from the spec: see `SLOT_HOTBAR_OFFSET`. -/
def SLOT_OFFHAND : Nat := 45

/-- `InventorySlot` from `player.rs`: a single inventory slot as persisted in
the player-data NBT (`Count: i8`, `Slot: i8`, `id: string`). The `i8` fields
are embedded as `Int` with bounds stated where a theorem needs them. -/
structure InventorySlot where
  count : Int
  slot : Int
  item : String
  deriving DecidableEq, Repr

/-- `InventorySlot::to_stack`: converts a slot to an `ItemStack`.
`ty` is `Item::from_identifier(id).unwrap_or(Item::Air)`; `amount` is
`self.count as u8`. -/
def InventorySlot.to_stack (self : InventorySlot) : ItemStack :=
  { ty := (Item.from_identifier self.item).getD Item.Air
    amount := (self.count % 256).toNat }

/-- The `let slot = if .. else { return None }` chain at the head of
`InventorySlot::from_network_index` (the early `return None` becomes
`none`). -/
def slotOfNetworkIndex (network : Nat) : Option Int :=
  if SLOT_HOTBAR_OFFSET ≤ network ∧ network < SLOT_HOTBAR_OFFSET + HOTBAR_SIZE then
    -- Hotbar: `(network - SLOT_HOTBAR_OFFSET) as i8`
    some (i8OfUsize (network - SLOT_HOTBAR_OFFSET))
  else if network = SLOT_OFFHAND then
    some (-106)
  else if SLOT_ARMOR_MIN ≤ network ∧ network ≤ SLOT_ARMOR_MAX then
    some (i8OfUsize ((SLOT_ARMOR_MAX - network) + 100))
  else if SLOT_INVENTORY_OFFSET ≤ network ∧
      network < SLOT_INVENTORY_OFFSET + INVENTORY_SIZE then
    some (i8OfUsize network)
  else
    none

/-- `InventorySlot::from_network_index`: converts a network protocol index,
item and count to an `InventorySlot`; `None` for indices outside every
range. `count` is `stack.amount as i8`; `item` is the stack's identifier. -/
def InventorySlot.from_network_index (network : Nat) (stack : ItemStack) :
    Option InventorySlot :=
  (slotOfNetworkIndex network).map fun slot =>
    { count := i8OfUsize stack.amount
      slot := slot
      item := stack.ty.identifier }

/-- `InventorySlot::convert_index`: converts an NBT inventory index to a
network protocol index; `None` if the index is invalid. -/
def InventorySlot.convert_index (self : InventorySlot) : Option Nat :=
  if 0 ≤ self.slot ∧ self.slot ≤ 8 then
    -- Hotbar
    some (SLOT_HOTBAR_OFFSET + usizeOfI8 self.slot)
  else if self.slot = -106 then
    -- Offhand
    some SLOT_OFFHAND
  else if 100 ≤ self.slot ∧ self.slot ≤ 103 then
    -- Equipment: `(108 - self.slot) as usize`
    some (usizeOfI8 (108 - self.slot))
  else if 9 ≤ self.slot ∧ self.slot ≤ 35 then
    -- Rest of inventory
    some (usizeOfI8 self.slot)
  else
    -- Unknown index
    none

/-- The four valid on-disk slot ranges of the data model (§3, §4.A). -/
def validDiskSlot (s : Int) : Prop :=
  (0 ≤ s ∧ s ≤ 8) ∨ s = -106 ∨ (100 ≤ s ∧ s ≤ 103) ∨ (9 ≤ s ∧ s ≤ 35)

instance : DecidablePred validDiskSlot := fun s => by
  unfold validDiskSlot; infer_instance

/-- The network indices accepted by `from_network_index` (§4.A). -/
def validNetworkIndex (i : Nat) : Prop :=
  (SLOT_HOTBAR_OFFSET ≤ i ∧ i < SLOT_HOTBAR_OFFSET + HOTBAR_SIZE) ∨ i = SLOT_OFFHAND ∨
    (SLOT_ARMOR_MIN ≤ i ∧ i ≤ SLOT_ARMOR_MAX) ∨
    (SLOT_INVENTORY_OFFSET ≤ i ∧ i < SLOT_INVENTORY_OFFSET + INVENTORY_SIZE)

instance : DecidablePred validNetworkIndex := fun i => by
  unfold validNetworkIndex; infer_instance

lemma usizeOfI8_eq_toNat (v : Int) (h0 : 0 ≤ v) (h1 : v < 2 ^ 64) :
    usizeOfI8 v = v.toNat := by
  unfold usizeOfI8; rw [Int.emod_eq_of_lt h0 h1]

lemma i8OfUsize_eq (n : Nat) (h : n < 128) : i8OfUsize n = n := by
  unfold i8OfUsize
  rw [Nat.mod_eq_of_lt (by omega)]
  simp [h]

/-- C5: for every disk slot outside the four valid ranges (the whole `i8`
domain minus `0..=8`, `9..=35`, `100..=103` and `-106`, so in particular
`-1`, `-2`, `-105`, `36..=99` and `104..=127`), `convert_index` returns
`None`; being a total Lean function it returns a value on every input and
cannot panic. -/
theorem convert_index_invalid_slot_none (sl : InventorySlot)
    (_hlo : -128 ≤ sl.slot) (_hhi : sl.slot ≤ 127)
    (h : ¬ validDiskSlot sl.slot) :
    sl.convert_index = none := by
  unfold InventorySlot.convert_index
  unfold validDiskSlot at h
  split_ifs with h1 h2 h3 h4
  · exact absurd (Or.inl h1) h
  · exact absurd (Or.inr (Or.inl h2)) h
  · exact absurd (Or.inr (Or.inr (Or.inl h3))) h
  · exact absurd (Or.inr (Or.inr (Or.inr h4))) h
  · rfl

theorem convert_index_invalid_slot_none_witness :
    ((-128 : Int) ≤ (-105 : Int) ∧ (-105 : Int) ≤ 127 ∧
        ¬ validDiskSlot (-105 : Int)) ∧
      (InventorySlot.mk 1 (-105) "minecraft:stone").convert_index = none :=
  ⟨⟨by decide, by decide, by decide⟩,
    convert_index_invalid_slot_none (InventorySlot.mk 1 (-105) "minecraft:stone")
      (by decide) (by decide) (by decide)⟩

/-- C1: the slot-index codec round-trips. Every valid disk slot converts to a
network index; converting that index back with `from_network_index` yields an
`InventorySlot` with the same `slot`. Conversely every network index accepted
by `from_network_index` (exactly the valid ones) converts back to itself via
`convert_index`, for any item stack. -/
theorem slot_index_codec_round_trip :
    (∀ sl : InventorySlot, validDiskSlot sl.slot →
      (sl.convert_index).isSome = true)
    ∧ (∀ (sl : InventorySlot) (i : Nat) (st : ItemStack),
        sl.convert_index = some i →
        ∃ sl' : InventorySlot,
          InventorySlot.from_network_index i st = some sl' ∧ sl'.slot = sl.slot)
    ∧ (∀ (i : Nat) (st : ItemStack), validNetworkIndex i →
        (InventorySlot.from_network_index i st).isSome = true)
    ∧ (∀ (i : Nat) (st : ItemStack) (sl : InventorySlot),
        InventorySlot.from_network_index i st = some sl →
        sl.convert_index = some i) := by
  refine ⟨?_, ?_, ?_, ?_⟩
  · intro sl h
    unfold validDiskSlot at h
    unfold InventorySlot.convert_index
    split_ifs with h1 h2 h3 h4 <;> first | rfl | omega
  · rintro ⟨c, s, it⟩ i st h
    unfold InventorySlot.convert_index at h
    dsimp only at h
    split_ifs at h with h1 h2 h3 h4
    · obtain ⟨ha, hb⟩ := h1
      injection h with h
      subst h
      interval_cases s <;> exact ⟨_, rfl, rfl⟩
    · injection h with h
      subst h
      subst h2
      exact ⟨_, rfl, rfl⟩
    · obtain ⟨ha, hb⟩ := h3
      injection h with h
      subst h
      interval_cases s <;> exact ⟨_, rfl, rfl⟩
    · obtain ⟨ha, hb⟩ := h4
      injection h with h
      subst h
      interval_cases s <;> exact ⟨_, rfl, rfl⟩
  · intro i st h
    unfold validNetworkIndex SLOT_HOTBAR_OFFSET HOTBAR_SIZE SLOT_OFFHAND
      SLOT_ARMOR_MIN SLOT_ARMOR_MAX SLOT_INVENTORY_OFFSET INVENTORY_SIZE at h
    unfold InventorySlot.from_network_index slotOfNetworkIndex
      SLOT_HOTBAR_OFFSET HOTBAR_SIZE SLOT_OFFHAND SLOT_ARMOR_MIN SLOT_ARMOR_MAX
      SLOT_INVENTORY_OFFSET INVENTORY_SIZE
    split_ifs with h1 h2 h3 h4 <;> first | rfl | omega
  · intro i st sl h
    unfold InventorySlot.from_network_index slotOfNetworkIndex
      SLOT_HOTBAR_OFFSET HOTBAR_SIZE SLOT_OFFHAND SLOT_ARMOR_MIN SLOT_ARMOR_MAX
      SLOT_INVENTORY_OFFSET INVENTORY_SIZE at h
    split_ifs at h with h1 h2 h3 h4
    all_goals simp only [Option.map_some', Option.map_none'] at h
    · obtain ⟨ha, hb⟩ := h1
      injection h with h
      subst h
      interval_cases i <;> rfl
    · injection h with h
      subst h
      subst h2
      rfl
    · obtain ⟨ha, hb⟩ := h3
      injection h with h
      subst h
      interval_cases i <;> rfl
    · obtain ⟨ha, hb⟩ := h4
      injection h with h
      subst h
      interval_cases i <;> rfl
    · exact absurd h (by simp)

theorem slot_index_codec_round_trip_witness :
    validDiskSlot (103 : Int) ∧
      ((InventorySlot.mk 1 103 "minecraft:stone").convert_index).isSome = true ∧
      validNetworkIndex 45 ∧
      (InventorySlot.from_network_index 45 (ItemStack.mk Item.Stone 1)).isSome
        = true :=
  ⟨by decide,
    slot_index_codec_round_trip.1 (InventorySlot.mk 1 103 "minecraft:stone")
      (by decide),
    by decide,
    slot_index_codec_round_trip.2.2.1 45 (ItemStack.mk Item.Stone 1) (by decide)⟩

/-- C6: decoding an `InventorySlot` whose `id` is not a known item identifier
yields the air sentinel `minecraft:air`, and the stack's amount is the slot's
`count` byte (`count as u8`, hence literally `count` for every non-negative
count). -/
theorem to_stack_unknown_id_air (sl : InventorySlot)
    (hlo : -128 ≤ sl.count) (hhi : sl.count ≤ 127)
    (h : Item.from_identifier sl.item = none) :
    sl.to_stack.ty = Item.Air ∧
      sl.to_stack.amount = (sl.count % 256).toNat ∧
      (0 ≤ sl.count → (sl.to_stack.amount : Int) = sl.count) := by
  unfold InventorySlot.to_stack
  rw [h]
  refine ⟨rfl, rfl, fun h0 => ?_⟩
  dsimp only
  omega

theorem to_stack_unknown_id_air_witness :
    ((-128 : Int) ≤ 1 ∧ (1 : Int) ≤ 127 ∧
        Item.from_identifier "invalid:identifier" = none) ∧
      (InventorySlot.mk 1 2 "invalid:identifier").to_stack.ty = Item.Air :=
  ⟨⟨by decide, by decide, by rfl⟩,
    (to_stack_unknown_id_air (InventorySlot.mk 1 2 "invalid:identifier")
      (by decide) (by decide) (by rfl)).1⟩

/-! ## Server hash (src/crates/server/src/network/initial_handling.rs)

`compute_server_hash` feeds the SHA-1 hasher and renders the digest with
`hexdigest`, which goes through `num_bigint::BigInt::from_signed_bytes_be`
and the `LowerHex` formatting of `BigInt`. The SHA-1 compression function
itself is the external `sha1` crate's primitive and is taken as a parameter
`digestFn`; everything around it is embedded. Bytes are `Nat`s below 256. -/

/-- Little-endian byte-list value: the first byte is least significant. -/
def leNat : List Nat → Nat
  | [] => 0
  | b :: rest => b + 256 * leNat rest

/-- Big-endian byte-list value (`BigUint::from_bytes_be`). -/
def beNat (bytes : List Nat) : Nat := leNat bytes.reverse

/-- The byte-wise complement step of `num_bigint`'s two's-complement pass. -/
def notBytes (l : List Nat) : List Nat := l.map fun b => 255 - b

/-- Add one with carry, least-significant byte first, wrapping inside the
fixed width (the carry out of the top byte is dropped). -/
def incLE : List Nat → List Nat
  | [] => []
  | b :: rest => if b = 255 then 0 :: incLE rest else (b + 1) :: rest

/-- `num_bigint`'s `twos_complement_be`: complement every byte, then add one
starting from the least-significant (last) byte. -/
def twos_complement_be (bytes : List Nat) : List Nat :=
  (incLE (notBytes bytes.reverse)).reverse

/-- `BigInt::from_signed_bytes_be`: sign is taken from the top bit of the
first byte; a negative value's magnitude is the two's complement of the
bytes; the empty slice is zero. -/
def from_signed_bytes_be (bytes : List Nat) : Int :=
  match bytes.head? with
  | none => 0
  | some b0 =>
      if 128 ≤ b0 then -(beNat (twos_complement_be bytes) : Int)
      else (beNat bytes : Int)

/-- Lowercase hexadecimal rendering of a natural number with no leading
zeros, and the single digit `0` for zero. -/
def natToHex (n : Nat) : String := String.mk (Nat.toDigits 16 n)

/-- `hexdigest` from `initial_handling.rs`: format the
`BigInt::from_signed_bytes_be` value with the `LowerHex` specifier, which
prints a leading `-` for a negative value followed by the magnitude in
lowercase hex. -/
def hexdigest (bytes : List Nat) : String :=
  let bigint := from_signed_bytes_be bytes
  if bigint < 0 then "-" ++ natToHex (-bigint).toNat else natToHex bigint.toNat

/-- The `sha1::Sha1` hasher as the list of bytes fed so far. -/
structure Sha1 where
  fed : List Nat

/-- `Sha1::new()`. -/
def Sha1.new : Sha1 := ⟨[]⟩

/-- `Sha1::update`: append the data to the stream being hashed. -/
def Sha1.update (s : Sha1) (data : List Nat) : Sha1 := ⟨s.fed ++ data⟩

/-- `compute_server_hash`: hash the empty server id, the 16-byte shared
secret and the cached DER-encoded RSA public key, and render the digest
with `hexdigest`. The SHA-1 digest primitive is the parameter `digestFn`. -/
def compute_server_hash (digestFn : List Nat → List Nat)
    (rsaKeyEncoded : List Nat) (shared_secret : List Nat) : String :=
  let hasher := Sha1.new
  let hasher := hasher.update []
  let hasher := hasher.update shared_secret
  let hasher := hasher.update rsaKeyEncoded
  hexdigest (digestFn hasher.fed)

/-- Follows the spec's words (§4.G): the Java `BigInteger(digest).toString(16)`
rendering. Interpret the digest as a signed big-endian two's-complement
integer, negative when the top bit of the first byte is set; render in
lowercase hexadecimal with a leading `-` for negative values, no leading
zeros beyond what is necessary, and `0` for zero. -/
def javaBigIntegerHex (bytes : List Nat) : String :=
  let u : Nat := beNat bytes
  let v : Int :=
    match bytes.head? with
    | some b0 =>
        if 128 ≤ b0 then (u : Int) - 2 ^ (8 * bytes.length) else (u : Int)
    | none => (u : Int)
  if v < 0 then "-" ++ natToHex (-v).toNat else natToHex v.toNat

lemma leNat_lt_of_bytes (l : List Nat) (h : ∀ b ∈ l, b < 256) :
    leNat l < 256 ^ l.length := by
  induction l with
  | nil => simp [leNat]
  | cons b rest ih =>
      have hb : b < 256 := h b (List.mem_cons_self b rest)
      have hr := ih fun x hx => h x (List.mem_cons_of_mem b hx)
      simp only [leNat, List.length_cons, pow_succ]
      nlinarith

lemma leNat_notBytes (l : List Nat) (h : ∀ b ∈ l, b < 256) :
    leNat (notBytes l) = 256 ^ l.length - 1 - leNat l := by
  induction l with
  | nil => simp [leNat, notBytes]
  | cons b rest ih =>
      have hb : b < 256 := h b (List.mem_cons_self b rest)
      have hr := ih fun x hx => h x (List.mem_cons_of_mem b hx)
      have hlt := leNat_lt_of_bytes rest fun x hx => h x (List.mem_cons_of_mem b hx)
      simp only [notBytes, List.map_cons, leNat, List.length_cons, pow_succ] at *
      omega

lemma leNat_incLE (l : List Nat) (h : ∀ b ∈ l, b < 256) :
    leNat (incLE l) = (leNat l + 1) % 256 ^ l.length := by
  induction l with
  | nil => simp [leNat, incLE]
  | cons b rest ih =>
      have hb : b < 256 := h b (List.mem_cons_self b rest)
      have hr := ih fun x hx => h x (List.mem_cons_of_mem b hx)
      have hlt := leNat_lt_of_bytes rest fun x hx => h x (List.mem_cons_of_mem b hx)
      have hmul : 256 * (leNat rest + 1) ≤ 256 * 256 ^ rest.length :=
        Nat.mul_le_mul_left 256 hlt
      by_cases hb255 : b = 255
      · subst hb255
        simp only [incLE, if_pos rfl, leNat, List.length_cons, pow_succ, hr]
        have heq : 255 + 256 * leNat rest + 1 = 256 * (leNat rest + 1) := by ring
        rw [heq, Nat.mul_comm (256 ^ rest.length) 256, Nat.mul_mod_mul_left]
        omega
      · simp only [incLE, if_neg hb255, leNat, List.length_cons, pow_succ]
        rw [Nat.mod_eq_of_lt (by omega)]
        omega

lemma leNat_append_byte (l : List Nat) (b : Nat) :
    leNat (l ++ [b]) = leNat l + 256 ^ l.length * b := by
  induction l with
  | nil => simp [leNat]
  | cons x rest ih =>
      rw [List.cons_append]
      show x + 256 * leNat (rest ++ [b]) = _
      rw [ih]
      simp only [leNat, List.length_cons, pow_succ]
      ring

lemma beNat_twos_complement (bytes : List Nat) (b0 : Nat) (rest : List Nat)
    (hcons : bytes = b0 :: rest) (h : ∀ b ∈ bytes, b < 256) (htop : 128 ≤ b0) :
    beNat (twos_complement_be bytes) = 256 ^ bytes.length - beNat bytes := by
  subst hcons
  have hrev : ∀ b ∈ (b0 :: rest).reverse, b < 256 := by
    intro b hb; exact h b (List.mem_reverse.mp hb)
  have hnot : ∀ b ∈ notBytes (b0 :: rest).reverse, b < 256 := by
    intro b hb
    simp only [notBytes, List.mem_map] at hb
    obtain ⟨x, _, hx⟩ := hb
    omega
  have hlen1 : (notBytes (b0 :: rest).reverse).length = (b0 :: rest).length := by
    simp [notBytes]
  unfold twos_complement_be beNat
  rw [List.reverse_reverse, leNat_incLE _ hnot, leNat_notBytes _ hrev, hlen1]
  have hlr : (b0 :: rest).reverse.length = (b0 :: rest).length := by simp
  rw [hlr]
  -- the value of the reversed list ends in the top byte b0, so it is ≥ 128
  have hval : leNat (b0 :: rest).reverse = leNat rest.reverse +
      256 ^ rest.length * b0 := by
    have : (b0 :: rest).reverse = rest.reverse ++ [b0] := by simp
    rw [this, leNat_append_byte]
    simp
  have hpos : 1 ≤ leNat (b0 :: rest).reverse := by
    have : 0 < 256 ^ rest.length * b0 :=
      Nat.mul_pos (pow_pos (by norm_num) _) (by omega)
    omega
  have hlt : leNat (b0 :: rest).reverse < 256 ^ (b0 :: rest).length := by
    have := leNat_lt_of_bytes (b0 :: rest).reverse hrev
    simpa using this
  rw [Nat.mod_eq_of_lt (by omega)]
  omega

/-- C2: `compute_server_hash` hashes the empty server id, then the shared
secret, then the cached DER public key, and renders the digest with
`hexdigest`; and on every byte string, `hexdigest` produces exactly the
Java `BigInteger(digest).toString(16)` rendering the spec describes
(signed big-endian two's complement, lowercase hex, leading `-` when
negative, no unnecessary leading zeros, `0` for zero). -/
theorem compute_server_hash_is_java_hex :
    (∀ (digestFn : List Nat → List Nat) (key secret : List Nat),
      secret.length = 16 →
      compute_server_hash digestFn key secret = hexdigest (digestFn (secret ++ key)))
    ∧ (∀ bytes : List Nat, (∀ b ∈ bytes, b < 256) →
      hexdigest bytes = javaBigIntegerHex bytes) := by
  constructor
  · intro digestFn key secret _
    unfold compute_server_hash Sha1.new Sha1.update
    simp
  · intro bytes h
    match bytes, h with
    | [], _ => rfl
    | b0 :: rest, h =>
        have hult : beNat (b0 :: rest) < 256 ^ (b0 :: rest).length := by
          unfold beNat
          have := leNat_lt_of_bytes (b0 :: rest).reverse
            (fun b hbm => h b (List.mem_reverse.mp hbm))
          simpa using this
        have hpowInt : ((256 ^ (b0 :: rest).length : Nat) : Int) =
            2 ^ (8 * (b0 :: rest).length) := by
          push_cast
          rw [show ((256 : Int)) = 2 ^ 8 by norm_num, ← pow_mul]
        unfold hexdigest javaBigIntegerHex from_signed_bytes_be
        simp only [List.head?_cons]
        by_cases htop : 128 ≤ b0
        · rw [if_pos htop, if_pos htop]
          have hmag := beNat_twos_complement (b0 :: rest) b0 rest rfl h htop
          have hupos : 1 ≤ beNat (b0 :: rest) := by
            unfold beNat
            have hsplit : (b0 :: rest).reverse = rest.reverse ++ [b0] := by simp
            rw [hsplit, leNat_append_byte]
            have : 0 < 256 ^ rest.reverse.length * b0 :=
              Nat.mul_pos (pow_pos (by norm_num) _) (by omega)
            omega
          rw [hmag]
          have hneg1 :
              (-(((256 : Nat) ^ (b0 :: rest).length - beNat (b0 :: rest) : Nat) : Int))
                < 0 := by
            have h1 : 1 ≤ 256 ^ (b0 :: rest).length - beNat (b0 :: rest) := by omega
            have h2 : (1 : Int) ≤
                ((256 ^ (b0 :: rest).length - beNat (b0 :: rest) : Nat) : Int) := by
              exact_mod_cast h1
            omega
          have hneg2 : ((beNat (b0 :: rest) : Nat) : Int) -
              2 ^ (8 * (b0 :: rest).length) < 0 := by
            have h1 : ((beNat (b0 :: rest) : Nat) : Int) <
                ((256 ^ (b0 :: rest).length : Nat) : Int) := by exact_mod_cast hult
            rw [← hpowInt]
            exact sub_neg.mpr h1
          rw [if_pos hneg1, if_pos hneg2]
          have hval : ((beNat (b0 :: rest) : Nat) : Int) -
              2 ^ (8 * (b0 :: rest).length) =
              -(((256 ^ (b0 :: rest).length - beNat (b0 :: rest) : Nat) : Int)) := by
            rw [Nat.cast_sub (le_of_lt hult), hpowInt]
            ring
          rw [hval]
        · rw [if_neg htop, if_neg htop]

theorem compute_server_hash_is_java_hex_witness :
    ((List.replicate 16 (0 : Nat)).length = 16 ∧
      compute_server_hash (fun l => l) [1, 2] (List.replicate 16 0)
        = hexdigest ((List.replicate 16 (0 : Nat)) ++ [1, 2])) ∧
      ((∀ b ∈ [(160 : Nat), 1], b < 256) ∧
        hexdigest [160, 1] = javaBigIntegerHex [160, 1]) :=
  ⟨⟨rfl, compute_server_hash_is_java_hex.1 (fun l => l) [1, 2]
      (List.replicate 16 0) rfl⟩,
    ⟨by decide, compute_server_hash_is_java_hex.2 [160, 1] (by decide)⟩⟩

/-! ## Connection bring-up (src/crates/server/src/network/initial_handling.rs)

The async handlers are embedded as explicit state passing over a `Worker`
state: the stream of pending read outcomes, the packets written so far, and
the codec's encryption state. A failed read (EOF or an undecodable frame)
is `none` in the stream; a handler's error (`?` / `bail!`, fatal for the
connection) is the `none` result. External effects — RSA decryption with
the process key, the random verify token, `Uuid::new_v4`, and the session
service round trip — are parameters in a `LoginContext`. The remote
address and the codec handle carried by `NewPlayer` are opaque
capabilities and are omitted. -/

/-- `SERVER_NAME` from `initial_handling.rs`. -/
def SERVER_NAME : String := "Feather 1.16.2"

/-- `PROTOCOL_VERSION` from `initial_handling.rs`. -/
def PROTOCOL_VERSION : Int := 751

/-- `HandshakeState`: the `next_state` field of the handshake packet. -/
inductive HandshakeState where
  | status
  | login
  deriving DecidableEq, Repr

/-- The client packets read during bring-up, one variant per wire packet. -/
inductive ClientPacket where
  | handshake (nextState : HandshakeState)
  | request
  | ping (payload : Int)
  | loginStart (name : String)
  | encryptionResponse (sharedSecret : List Nat) (verifyToken : List Nat)
  deriving DecidableEq, Repr

/-- `base::ProfileProperty`. -/
structure ProfileProperty where
  name : String
  value : String
  signature : Option String
  deriving DecidableEq, Repr

/-- `AuthResponse`: the authenticated (or synthesized) profile. UUIDs are
opaque 128-bit values, embedded as `Nat`. -/
structure AuthResponse where
  id : Nat
  name : String
  properties : List ProfileProperty
  deriving DecidableEq, Repr

/-- The server packets written during bring-up. -/
inductive ServerPacket where
  | response (json : String)
  | pong (payload : Int)
  | encryptionRequest (serverId : String) (publicKey : List Nat)
      (verifyToken : List Nat)
  | loginSuccess (uuid : Nat) (username : String)
  deriving DecidableEq, Repr

/-- `NewPlayer` (address and codec handle omitted as opaque). -/
structure NewPlayer where
  username : String
  uuid : Nat
  deriving DecidableEq, Repr

/-- Result of initial handling. -/
inductive InitialHandling where
  | disconnect
  | join (p : NewPlayer)
  deriving DecidableEq, Repr

/-- The connection worker as visible to initial handling: pending read
outcomes (`none` = EOF or an undecodable frame), packets written so far,
the codec's encryption state, and the read-only server configuration. -/
structure Worker where
  incoming : List (Option ClientPacket)
  written : List ServerPacket
  encryption : Option (List Nat)
  maxPlayers : Int
  onlineCount : Nat
  motdJson : String
  onlineMode : Bool

/-- `worker.read::<T>()`: take the next read outcome off the stream; an
empty stream is an EOF, i.e. a failed read. The caller matches the packet
shape it expects (a mismatched frame is a decode failure). -/
def readPacket (w : Worker) : Worker × Option ClientPacket :=
  match w.incoming with
  | [] => (w, none)
  | p :: rest => ({ w with incoming := rest }, p)

/-- `worker.write(..)`: append a packet to the outgoing stream. -/
def writePacket (p : ServerPacket) (w : Worker) : Worker :=
  { w with written := w.written ++ [p] }

/-- External effects of the login path: `RSA_KEY.decrypt` (PKCS1v15, may
fail), the cached `RSA_KEY_ENCODED` DER bytes, the random 16-byte verify
token of this handshake, the `Uuid::new_v4()` result of offline mode, and
the session-service round trip performed by `authenticate`. -/
structure LoginContext where
  decrypt : List Nat → Option (List Nat)
  rsaKeyEncoded : List Nat
  verifyToken : List Nat
  freshUuid : Nat
  authResult : List Nat → String → Option AuthResponse

/-- The `serde_json::to_string` rendering of `StatusResponse`: fields in
declaration order — `version` (name, protocol), `players` (max, online),
`description` (the MOTD chat component, pre-rendered). -/
def statusJson (maxPlayers : Int) (onlineCount : Nat) (motdJson : String) :
    String :=
  "\x7b\"version\":\x7b\"name\":\"" ++ SERVER_NAME ++ "\",\"protocol\":" ++
    toString PROTOCOL_VERSION ++ "\x7d,\"players\":\x7b\"max\":" ++
    toString maxPlayers ++ ",\"online\":" ++ toString onlineCount ++
    "\x7d,\"description\":" ++ motdJson ++ "\x7d"

/-- `handle_status`: read a Request, write the Response, then answer an
optional Ping with a Pong echoing its payload; the Ping read failing is
swallowed (`if let Ok(ping) = ...`); the result is always Disconnect once
the Response is out. -/
def handle_status (w : Worker) : Worker × Option InitialHandling :=
  match readPacket w with
  | (w, some ClientPacket.request) =>
      let payload := statusJson w.maxPlayers w.onlineCount w.motdJson
      let w := writePacket (ServerPacket.response payload) w
      match readPacket w with
      | (w, some (ClientPacket.ping payload)) =>
          let w := writePacket (ServerPacket.pong payload) w
          (w, some InitialHandling.disconnect)
      | (w, _) => (w, some InitialHandling.disconnect)
  | (w, _) => (w, none)

/-- `compute_offline_mode_profile`: a synthetic profile with the freshly
generated UUID, the client-supplied name, and no properties. -/
def compute_offline_mode_profile (freshUuid : Nat) (username : String) :
    AuthResponse :=
  { name := username
    id := freshUuid
    properties := [] }

/-- `finish_login`: write LoginSuccess carrying the profile's uuid and name
and yield `Join` with the same identity. -/
def finish_login (response : AuthResponse) (w : Worker) :
    Worker × Option InitialHandling :=
  let success := ServerPacket.loginSuccess response.id response.name
  let w := writePacket success w
  (w, some (InitialHandling.join
    { username := response.name, uuid := response.id }))

/-- `do_encryption_handshake`: send EncryptionRequest (empty server id, the
cached DER key, the verify token), read EncryptionResponse, RSA-decrypt
both fields, require the verify token to match byte-for-byte, and convert
the decrypted secret to a 16-byte `CryptKey` (`try_into` fails on any other
length). -/
def do_encryption_handshake (ctx : LoginContext) (w : Worker) :
    Worker × Option (List Nat) :=
  let request := ServerPacket.encryptionRequest "" ctx.rsaKeyEncoded
    ctx.verifyToken
  let w := writePacket request w
  match readPacket w with
  | (w, some (ClientPacket.encryptionResponse ss vt)) =>
      match ctx.decrypt ss with
      | none => (w, none)
      | some shared_secret =>
          match ctx.decrypt vt with
          | none => (w, none)
          | some received_verify_token =>
              if received_verify_token ≠ ctx.verifyToken then (w, none)
              else if shared_secret.length = 16 then (w, some shared_secret)
              else (w, none)
  | (w, _) => (w, none)

/-- `enable_encryption`: run the handshake, install the shared secret on the
codec, authenticate against the session service, then finish the login. -/
def enable_encryption (ctx : LoginContext) (username : String) (w : Worker) :
    Worker × Option InitialHandling :=
  match do_encryption_handshake ctx w with
  | (w, none) => (w, none)
  | (w, some shared_secret) =>
      let w := { w with encryption := some shared_secret }
      match ctx.authResult shared_secret username with
      | none => (w, none)
      | some response => finish_login response w

/-- `handle_login`: read LoginStart (anything else is fatal), then branch on
`online_mode`. -/
def handle_login (ctx : LoginContext) (w : Worker) :
    Worker × Option InitialHandling :=
  match readPacket w with
  | (w, some (ClientPacket.loginStart name)) =>
      if w.onlineMode then enable_encryption ctx name w
      else finish_login (compute_offline_mode_profile ctx.freshUuid name) w
  | (w, _) => (w, none)

/-- `handle`: read the handshake and dispatch on `next_state`. -/
def handle (ctx : LoginContext) (w : Worker) :
    Worker × Option InitialHandling :=
  match readPacket w with
  | (w, some (ClientPacket.handshake next)) =>
      match next with
      | HandshakeState.status => handle_status w
      | HandshakeState.login => handle_login ctx w
  | (w, _) => (w, none)

lemma do_encryption_handshake_keeps_encryption (ctx : LoginContext)
    (w : Worker) :
    (do_encryption_handshake ctx w).1.encryption = w.encryption := by
  unfold do_encryption_handshake readPacket writePacket
  cases w.incoming with
  | nil => rfl
  | cons p rest =>
      cases p with
      | none => rfl
      | some q =>
          cases q with
          | encryptionResponse ss vt =>
              dsimp only
              cases ctx.decrypt ss with
              | none => rfl
              | some s =>
                  cases ctx.decrypt vt with
                  | none => rfl
                  | some t =>
                      dsimp only
                      split_ifs <;> rfl
          | handshake next => rfl
          | request => rfl
          | ping payload => rfl
          | loginStart name => rfl

/-- C7: after a Request, the status flow writes exactly one Response whose
JSON is the serde rendering carrying the server name, the protocol version
751, the configured max player count and the current online count; a
following Ping is answered by exactly one Pong echoing the same payload;
and the flow's result is Disconnect. -/
theorem handle_status_protocol (w : Worker) (rest : List (Option ClientPacket))
    (hin : w.incoming = some ClientPacket.request :: rest)
    (hw : w.written = []) :
    SERVER_NAME = "Feather 1.16.2" ∧ PROTOCOL_VERSION = 751 ∧
    (handle_status w).2 = some InitialHandling.disconnect ∧
    (handle_status w).1.written.head? =
      some (ServerPacket.response
        (statusJson w.maxPlayers w.onlineCount w.motdJson)) ∧
    (∀ payload rest2, rest = some (ClientPacket.ping payload) :: rest2 →
      (handle_status w).1.written =
        [ServerPacket.response
          (statusJson w.maxPlayers w.onlineCount w.motdJson),
         ServerPacket.pong payload]) := by
  refine ⟨rfl, rfl, ?_, ?_, ?_⟩ <;>
  · cases rest with
    | nil => simp [handle_status, readPacket, writePacket, hin, hw]
    | cons p rest2 =>
        cases p with
        | none => simp [handle_status, readPacket, writePacket, hin, hw]
        | some q =>
            cases q <;>
              simp [handle_status, readPacket, writePacket, hin, hw]

theorem handle_status_protocol_witness :
    ((Worker.mk
        [some ClientPacket.request, some (ClientPacket.ping 1234)]
        [] none 20 3 "\"A Server\"" false).incoming =
      some ClientPacket.request :: [some (ClientPacket.ping 1234)] ∧
      (Worker.mk [some ClientPacket.request, some (ClientPacket.ping 1234)]
        [] none 20 3 "\"A Server\"" false).written = []) ∧
    (handle_status (Worker.mk
        [some ClientPacket.request, some (ClientPacket.ping 1234)]
        [] none 20 3 "\"A Server\"" false)).2 =
      some InitialHandling.disconnect :=
  ⟨⟨rfl, rfl⟩,
    (handle_status_protocol
      (Worker.mk [some ClientPacket.request, some (ClientPacket.ping 1234)]
        [] none 20 3 "\"A Server\"" false)
      [some (ClientPacket.ping 1234)] rfl rfl).2.2.1⟩

/-- C10: a failure to read the Ping after the Response is out — EOF, an
undecodable frame, or any packet other than Ping — is swallowed: no Pong is
written and the result is still Disconnect; by contrast a failed first read
makes both `handle_status` and `handle_login` return the fatal error. -/
theorem handle_status_swallows_ping_failure (w : Worker)
    (p : Option ClientPacket) (rest : List (Option ClientPacket))
    (hin : w.incoming = some ClientPacket.request :: p :: rest)
    (hw : w.written = [])
    (hnp : ∀ payload, p ≠ some (ClientPacket.ping payload)) :
    ((handle_status w).2 = some InitialHandling.disconnect ∧
      (handle_status w).1.written =
        [ServerPacket.response
          (statusJson w.maxPlayers w.onlineCount w.motdJson)]) ∧
    (∀ (w2 : Worker) (ctx : LoginContext) rest2,
      w2.incoming = none :: rest2 →
      (handle_status w2).2 = none ∧ (handle_login ctx w2).2 = none) := by
  constructor
  · cases p with
    | none => simp [handle_status, readPacket, writePacket, hin, hw]
    | some q =>
        cases q with
        | ping payload => exact absurd rfl (hnp payload)
        | handshake next =>
            simp [handle_status, readPacket, writePacket, hin, hw]
        | request => simp [handle_status, readPacket, writePacket, hin, hw]
        | loginStart name =>
            simp [handle_status, readPacket, writePacket, hin, hw]
        | encryptionResponse ss vt =>
            simp [handle_status, readPacket, writePacket, hin, hw]
  · intro w2 ctx rest2 hin2
    exact ⟨by simp [handle_status, readPacket, hin2],
      by simp [handle_login, readPacket, hin2]⟩

theorem handle_status_swallows_ping_failure_witness :
    ((Worker.mk [some ClientPacket.request, none] [] none 20 3 "\"m\"" false).incoming
        = some ClientPacket.request :: none :: [] ∧
      (Worker.mk [some ClientPacket.request, none] [] none 20 3 "\"m\"" false).written
        = [] ∧
      (∀ payload, (none : Option ClientPacket) ≠
        some (ClientPacket.ping payload))) ∧
    (handle_status (Worker.mk [some ClientPacket.request, none]
        [] none 20 3 "\"m\"" false)).2 = some InitialHandling.disconnect :=
  ⟨⟨rfl, rfl, fun _ => by simp⟩,
    (handle_status_swallows_ping_failure
      (Worker.mk [some ClientPacket.request, none] [] none 20 3 "\"m\"" false)
      none [] rfl rfl (fun _ => by simp)).1.1⟩

/-- C3: when the RSA-decrypted verify token differs from the token the
server sent, the handshake (and with it the whole login flow) returns the
fatal error and no LoginSuccess packet is ever written on the connection —
the only packet out is the EncryptionRequest. This holds whether or not the
shared secret decrypted. -/
theorem verify_token_mismatch_fatal (ctx : LoginContext) (w : Worker)
    (name : String) (ss vt t : List Nat) (rest : List (Option ClientPacket))
    (hin : w.incoming =
      some (ClientPacket.loginStart name) ::
        some (ClientPacket.encryptionResponse ss vt) :: rest)
    (hw : w.written = []) (hmode : w.onlineMode = true)
    (hvt : ctx.decrypt vt = some t) (hne : t ≠ ctx.verifyToken) :
    (handle_login ctx w).2 = none ∧
    (handle_login ctx w).1.written =
      [ServerPacket.encryptionRequest "" ctx.rsaKeyEncoded ctx.verifyToken] ∧
    (∀ p ∈ (handle_login ctx w).1.written,
      ∀ uuid username, p ≠ ServerPacket.loginSuccess uuid username) := by
  have hmain : (handle_login ctx w).2 = none ∧
      (handle_login ctx w).1.written =
        [ServerPacket.encryptionRequest "" ctx.rsaKeyEncoded ctx.verifyToken] := by
    cases hss : ctx.decrypt ss with
    | none =>
        constructor <;>
          simp [handle_login, enable_encryption, do_encryption_handshake,
            readPacket, writePacket, hin, hw, hmode, hss]
    | some s =>
        constructor <;>
          simp [handle_login, enable_encryption, do_encryption_handshake,
            readPacket, writePacket, hin, hw, hmode, hss, hvt, hne]
  refine ⟨hmain.1, hmain.2, ?_⟩
  intro p hp uuid username
  rw [hmain.2] at hp
  simp only [List.mem_singleton] at hp
  subst hp
  intro hcontra
  cases hcontra

theorem verify_token_mismatch_fatal_witness :
    ((Worker.mk
        [some (ClientPacket.loginStart "alice"),
         some (ClientPacket.encryptionResponse [2] [9])]
        [] none 20 3 "\"m\"" true).onlineMode = true ∧
      (LoginContext.mk (fun l => some l) [1] (List.replicate 16 0) 7
        (fun _ _ => none)).decrypt [9] = some [9] ∧
      [(9 : Nat)] ≠ (LoginContext.mk (fun l => some l) [1]
        (List.replicate 16 0) 7 (fun _ _ => none)).verifyToken) ∧
    (handle_login
      (LoginContext.mk (fun l => some l) [1] (List.replicate 16 0) 7
        (fun _ _ => none))
      (Worker.mk
        [some (ClientPacket.loginStart "alice"),
         some (ClientPacket.encryptionResponse [2] [9])]
        [] none 20 3 "\"m\"" true)).2 = none :=
  ⟨⟨rfl, rfl, by decide⟩,
    (verify_token_mismatch_fatal
      (LoginContext.mk (fun l => some l) [1] (List.replicate 16 0) 7
        (fun _ _ => none))
      (Worker.mk
        [some (ClientPacket.loginStart "alice"),
         some (ClientPacket.encryptionResponse [2] [9])]
        [] none 20 3 "\"m\"" true)
      "alice" [2] [9] [9] [] rfl rfl rfl rfl (by decide)).1⟩

/-- C4: `do_encryption_handshake` yields a CryptKey only when the decrypted
shared secret is exactly 16 bytes; with both fields decrypted and the
verify token matching, a secret of any other length is a fatal error. -/
theorem shared_secret_must_be_16_bytes (ctx : LoginContext) (w : Worker) :
    (∀ k, (do_encryption_handshake ctx w).2 = some k → k.length = 16) ∧
    (∀ ss vt s t rest,
      w.incoming = some (ClientPacket.encryptionResponse ss vt) :: rest →
      ctx.decrypt ss = some s → ctx.decrypt vt = some t →
      t = ctx.verifyToken → s.length ≠ 16 →
      (do_encryption_handshake ctx w).2 = none) := by
  constructor
  · intro k hk
    unfold do_encryption_handshake readPacket writePacket at hk
    cases hin : w.incoming with
    | nil => rw [hin] at hk; cases hk
    | cons p rest =>
        rw [hin] at hk
        cases p with
        | none => cases hk
        | some q =>
            cases q with
            | encryptionResponse ss vt =>
                dsimp only at hk
                cases hss : ctx.decrypt ss with
                | none => rw [hss] at hk; cases hk
                | some s =>
                    rw [hss] at hk
                    cases hvt : ctx.decrypt vt with
                    | none => rw [hvt] at hk; cases hk
                    | some t =>
                        rw [hvt] at hk
                        dsimp only at hk
                        by_cases h1 : t ≠ ctx.verifyToken
                        · simp [h1] at hk
                        · by_cases h2 : s.length = 16
                          · simp [h1, h2] at hk
                            exact hk ▸ h2
                          · simp [h1, h2] at hk
            | handshake next => cases hk
            | request => cases hk
            | ping payload => cases hk
            | loginStart name => cases hk
  · intro ss vt s t rest hin hss hvt hteq hlen
    have hne : ¬ (t ≠ ctx.verifyToken) := by simp [hteq]
    simp [do_encryption_handshake, readPacket, writePacket, hin, hss, hvt,
      hne, hteq, hlen]

theorem shared_secret_must_be_16_bytes_witness :
    ((Worker.mk [some (ClientPacket.encryptionResponse [2, 3] [0])]
        [] none 20 3 "\"m\"" true).incoming =
      some (ClientPacket.encryptionResponse [2, 3] [0]) :: [] ∧
      (LoginContext.mk (fun l => some l) [1] [0] 7 (fun _ _ => none)).decrypt
        [2, 3] = some [2, 3] ∧
      (LoginContext.mk (fun l => some l) [1] [0] 7 (fun _ _ => none)).decrypt
        [0] = some [0] ∧
      [(0 : Nat)] = (LoginContext.mk (fun l => some l) [1] [0] 7
        (fun _ _ => none)).verifyToken ∧
      ([(2 : Nat), 3]).length ≠ 16) ∧
    (do_encryption_handshake
      (LoginContext.mk (fun l => some l) [1] [0] 7 (fun _ _ => none))
      (Worker.mk [some (ClientPacket.encryptionResponse [2, 3] [0])]
        [] none 20 3 "\"m\"" true)).2 = none :=
  ⟨⟨rfl, rfl, rfl, rfl, by decide⟩,
    (shared_secret_must_be_16_bytes
      (LoginContext.mk (fun l => some l) [1] [0] 7 (fun _ _ => none))
      (Worker.mk [some (ClientPacket.encryptionResponse [2, 3] [0])]
        [] none 20 3 "\"m\"" true)).2
      [2, 3] [0] [2, 3] [0] [] rfl rfl rfl rfl (by decide)⟩

/-- C9: encryption is installed on the codec only after the whole handshake
has succeeded. If `do_encryption_handshake` fails, `enable_encryption`
propagates the error and the codec's encryption state is unchanged; and
whenever the encryption state did change, the handshake returned a 16-byte
key and that key is what was installed. -/
theorem encryption_installed_only_after_success (ctx : LoginContext)
    (name : String) (w : Worker) :
    ((do_encryption_handshake ctx w).2 = none →
      (enable_encryption ctx name w).2 = none ∧
      (enable_encryption ctx name w).1.encryption = w.encryption) ∧
    ((enable_encryption ctx name w).1.encryption ≠ w.encryption →
      ∃ k, (do_encryption_handshake ctx w).2 = some k ∧ k.length = 16 ∧
        (enable_encryption ctx name w).1.encryption = some k) := by
  have hkeep := do_encryption_handshake_keeps_encryption ctx w
  have hlen := (shared_secret_must_be_16_bytes ctx w).1
  constructor
  · intro hfail
    unfold enable_encryption
    rcases hde : do_encryption_handshake ctx w with ⟨w', r⟩
    rw [hde] at hfail hkeep
    dsimp only at hfail hkeep
    subst hfail
    exact ⟨rfl, hkeep⟩
  · intro hchanged
    unfold enable_encryption at hchanged ⊢
    rcases hde : do_encryption_handshake ctx w with ⟨w', r⟩
    rw [hde] at hchanged hkeep
    dsimp only at hkeep
    cases r with
    | none => exact absurd hkeep hchanged
    | some k =>
        refine ⟨k, rfl, hlen k (by rw [hde]), ?_⟩
        dsimp only
        cases haud : ctx.authResult k name with
        | none => rfl
        | some response => simp [finish_login, writePacket]

theorem encryption_installed_only_after_success_witness :
    (do_encryption_handshake
        (LoginContext.mk (fun _ => none) [1] [0] 7 (fun _ _ => none))
        (Worker.mk [some (ClientPacket.encryptionResponse [2] [3])]
          [] none 20 3 "\"m\"" true)).2 = none ∧
    (enable_encryption
        (LoginContext.mk (fun _ => none) [1] [0] 7 (fun _ _ => none)) "alice"
        (Worker.mk [some (ClientPacket.encryptionResponse [2] [3])]
          [] none 20 3 "\"m\"" true)).2 = none ∧
    (enable_encryption
        (LoginContext.mk (fun _ => none) [1] [0] 7 (fun _ _ => none)) "alice"
        (Worker.mk [some (ClientPacket.encryptionResponse [2] [3])]
          [] none 20 3 "\"m\"" true)).1.encryption =
      (Worker.mk [some (ClientPacket.encryptionResponse [2] [3])]
        [] none 20 3 "\"m\"" true).encryption :=
  ⟨rfl,
    ((encryption_installed_only_after_success
      (LoginContext.mk (fun _ => none) [1] [0] 7 (fun _ _ => none)) "alice"
      (Worker.mk [some (ClientPacket.encryptionResponse [2] [3])]
        [] none 20 3 "\"m\"" true)).1 rfl).1,
    ((encryption_installed_only_after_success
      (LoginContext.mk (fun _ => none) [1] [0] 7 (fun _ _ => none)) "alice"
      (Worker.mk [some (ClientPacket.encryptionResponse [2] [3])]
        [] none 20 3 "\"m\"" true)).1 rfl).2⟩

/-- C8: in offline mode, a LoginStart leads straight to `finish_login` with
the synthetic profile: the result is Join with the client-supplied name and
the freshly generated UUID, the only packet written is a LoginSuccess
carrying that same name and UUID, the profile's properties are empty, and
the encryption state is untouched (no encryption handshake happens). -/
theorem offline_mode_login (ctx : LoginContext) (w : Worker) (name : String)
    (rest : List (Option ClientPacket))
    (hin : w.incoming = some (ClientPacket.loginStart name) :: rest)
    (hw : w.written = []) (hmode : w.onlineMode = false) :
    compute_offline_mode_profile ctx.freshUuid name =
      AuthResponse.mk ctx.freshUuid name [] ∧
    (handle_login ctx w).2 =
      some (InitialHandling.join (NewPlayer.mk name ctx.freshUuid)) ∧
    (handle_login ctx w).1.written =
      [ServerPacket.loginSuccess ctx.freshUuid name] ∧
    (handle_login ctx w).1.encryption = w.encryption := by
  refine ⟨rfl, ?_, ?_, ?_⟩ <;>
    simp [handle_login, readPacket, finish_login, writePacket,
      compute_offline_mode_profile, hin, hw, hmode]

theorem offline_mode_login_witness :
    ((Worker.mk [some (ClientPacket.loginStart "alice")]
        [] none 20 3 "\"m\"" false).incoming =
      some (ClientPacket.loginStart "alice") :: [] ∧
      (Worker.mk [some (ClientPacket.loginStart "alice")]
        [] none 20 3 "\"m\"" false).onlineMode = false) ∧
    (handle_login
      (LoginContext.mk (fun l => some l) [1] [0] 7 (fun _ _ => none))
      (Worker.mk [some (ClientPacket.loginStart "alice")]
        [] none 20 3 "\"m\"" false)).2 =
      some (InitialHandling.join (NewPlayer.mk "alice" 7)) :=
  ⟨⟨rfl, rfl⟩,
    (offline_mode_login
      (LoginContext.mk (fun l => some l) [1] [0] 7 (fun _ _ => none))
      (Worker.mk [some (ClientPacket.loginStart "alice")]
        [] none 20 3 "\"m\"" false)
      "alice" [] rfl rfl rfl).2.1⟩
